import Mathlib

/-
Verification of the image-sifter application (src/src/main.rs) against its
natural-language specification.

Shallow embedding conventions:
- `OsString` file-name components are modelled as `String`.
- `std::path::PathBuf` is modelled as `FsPath := List String`, the list of path
  components; `PathBuf::join` with a single relative component is `++ [c]`.
- `Vec<T>` is `List T`; `Vec::push` appends at the end; `Vec::remove(0)` drops
  the head.
- Filesystem effects are modelled explicitly: directory listings as an
  inductive `FsEntry` tree (with a constructor for a directory whose
  `read_dir` fails), and the export-time filesystem as an `FsConfig` record
  of which files exist and which copy / create-dir operations fail.
-/

/-- A filesystem path, as its list of components (`PathBuf`). -/
abbrev FsPath := List String

/-- Mirrors `struct FileSysNode` (main.rs lines 27-32): an in-memory directory
node holding the image file names directly inside it, its subdirectory nodes
(`Vec<Box<FileSysNode>>`, modelled without the box), and its own name. -/
inductive FileSysNode where
  | mk (images : List String) (children : List FileSysNode) (name : String)

/-- Field accessor for `FileSysNode.images`. -/
def FileSysNode.images : FileSysNode → List String
  | .mk i _ _ => i

/-- Field accessor for `FileSysNode.children`. -/
def FileSysNode.children : FileSysNode → List FileSysNode
  | .mk _ c _ => c

/-- Field accessor for `FileSysNode.name`. -/
def FileSysNode.name : FileSysNode → String
  | .mk _ _ n => n

mutual

/-- Mirrors `FileSysNode::count_images` (main.rs lines 83-89): the node's own
image count plus, recursively, each child's count. -/
def count_images : FileSysNode → Nat
  | .mk imgs children _ => imgs.length + count_images_list children

/-- The `for child in &self.children` accumulation inside `count_images`. -/
def count_images_list : List FileSysNode → Nat
  | [] => 0
  | c :: cs => count_images c + count_images_list cs

end

mutual

/-- Mirrors `FileSysNode::get_images_depth_first_current_priority`
(main.rs lines 92-108): first every image of the current directory joined
onto `base_path` (in stored order), then the recursive projections of the
children (in stored order), each with `base_path` extended by the child's
name. -/
def get_images_depth_first_current_priority : FileSysNode → FsPath → List FsPath
  | .mk imgs children _, base =>
      imgs.map (fun i => base ++ [i]) ++ get_images_list children base

/-- The `for child in &self.children` loop inside
`get_images_depth_first_current_priority`. -/
def get_images_list : List FileSysNode → FsPath → List FsPath
  | [], _ => []
  | c :: cs, base =>
      get_images_depth_first_current_priority c (base ++ [c.name]) ++
        get_images_list cs base

end

theorem get_images_list_eq_join (cs : List FileSysNode) (base : FsPath) :
    get_images_list cs base =
      (cs.map (fun c =>
        get_images_depth_first_current_priority c (base ++ [c.name]))).join := by
  induction cs with
  | nil => rfl
  | cons c cs ih => simp [get_images_list, ih]

mutual

theorem get_images_length (n : FileSysNode) (base : FsPath) :
    (get_images_depth_first_current_priority n base).length = count_images n := by
  match n with
  | .mk imgs children nm =>
    simp [get_images_depth_first_current_priority, count_images,
      get_images_list_length children base]

theorem get_images_list_length (cs : List FileSysNode) (base : FsPath) :
    (get_images_list cs base).length = count_images_list cs := by
  match cs with
  | [] => rfl
  | c :: cs =>
    simp [get_images_list, count_images_list,
      get_images_length c (base ++ [c.name]), get_images_list_length cs base]

end

/-- Claim C1: for every directory tree node and base path, the projection
emits the node's own images first (in stored order, each joined onto the
base path): they form exactly the first `n.images.length` elements, so each
precedes every image coming from a subdirectory; the remainder is the
concatenation, in stored child order, of the children's recursive
projections, each rooted at `base ++ [child.name]`. Determinism is inherent:
the projection is a pure function of the tree and base path. -/
theorem C1_projection_self_images_before_children (n : FileSysNode) (base : FsPath) :
    (get_images_depth_first_current_priority n base).take n.images.length =
      n.images.map (fun i => base ++ [i]) ∧
    (get_images_depth_first_current_priority n base).drop n.images.length =
      (n.children.map (fun c =>
        get_images_depth_first_current_priority c (base ++ [c.name]))).join := by
  match n with
  | .mk imgs children nm =>
    constructor
    · show (List.take imgs.length _) = _
      rw [get_images_depth_first_current_priority]
      rw [show imgs.length = (imgs.map (fun i => base ++ [i])).length by simp]
      exact List.take_left _ _
    · show (List.drop imgs.length _) = _
      rw [get_images_depth_first_current_priority]
      rw [show imgs.length = (imgs.map (fun i => base ++ [i])).length by simp]
      rw [List.drop_left]
      exact get_images_list_eq_join children base

/-- Claim C2: the projected image sequence of any tree has length equal to
the tree's recursive image count (`count_images`): every image stored in the
tree contributes exactly one entry to the projection. -/
theorem C2_projection_length_eq_count (n : FileSysNode) (base : FsPath) :
    (get_images_depth_first_current_priority n base).length = count_images n :=
  get_images_length n base

/-- Mirrors `struct MyApp` (main.rs lines 34-44). `working_path` and `images`
are the selected root and scanned tree; `image_paths` is the remaining work
queue in traversal order (decided items are removed from its front);
`kept_images` and `discarded_count` are the decision ledger; `texture` is the
only cached display artifact, holding the decoded texture of the current
(front) queue item when present. The `egui::TextureHandle` payload is
abstracted to a `Nat` identifier. -/
structure MyApp where
  working_path : Option FsPath
  images : Option FileSysNode
  image_paths : List FsPath
  kept_images : List FsPath
  discarded_count : Nat
  is_loading : Bool
  image_counter : Nat
  texture : Option Nat

/-- Mirrors the advance block of `update` (main.rs lines 419-430), run when
`should_advance` is set and the queue is non-empty: push the current (front)
path onto `kept_images` or bump `discarded_count`, remove the front of the
queue, drop the current texture, and bump the URI counter. On an empty queue
the block cannot run (the enclosing branch requires non-emptiness), so the
state is returned unchanged. -/
def advance (s : MyApp) (keep_image : Bool) : MyApp :=
  match s.image_paths with
  | [] => s
  | current :: rest =>
    { s with
      kept_images := if keep_image then s.kept_images ++ [current] else s.kept_images,
      discarded_count := if keep_image then s.discarded_count else s.discarded_count + 1,
      image_paths := rest,
      texture := none,
      image_counter := s.image_counter + 1 }

/-- Mirrors the `ctx.input` closure (main.rs lines 244-259): compute the
`(should_advance, keep_image)` flags from the arrow keys. The closure only
reads `image_paths` (to re-check non-emptiness); it never mutates it. -/
def read_input (paths : List FsPath) (right_pressed left_pressed : Bool) : Bool × Bool :=
  let s1 := if right_pressed && !paths.isEmpty then (true, true) else (false, false)
  if left_pressed && !paths.isEmpty then (true, false) else s1

/-- Which branch of the viewer section of `update` a frame takes. -/
inductive FrameBranch where
  | noQueue
  | viewer
  | allProcessed

/-- Mirrors the control flow of the viewer section of `update`
(main.rs lines 238-473): the outer `if !self.image_paths.is_empty()` guard
(line 238), the keyboard-input flag computation (lines 244-259, which does
not touch the queue), the inner `if !self.image_paths.is_empty()` test
(line 264) whose else-branch (lines 432-472) is the only place the
"All images processed" UI — and with it `copy_kept_images` and the reset
action — can be reached, the Keep/Discard button flags (lines 383-393), and
the advance block (lines 419-430). -/
def update_frame (s : MyApp)
    (right_pressed left_pressed keep_clicked discard_clicked : Bool) :
    FrameBranch × MyApp :=
  if s.image_paths.isEmpty then
    (FrameBranch.noQueue, s)
  else
    let kb := read_input s.image_paths right_pressed left_pressed
    if s.image_paths.isEmpty then
      (FrameBranch.allProcessed, s)
    else
      let flags1 := if keep_clicked then (true, true) else kb
      let flags := if discard_clicked then (true, false) else flags1
      if flags.1 then (FrameBranch.viewer, advance s flags.2)
      else (FrameBranch.viewer, s)

/-- Claim C3: an advance (keep or discard) on a state with a non-empty queue
preserves the ledger invariant: kept count + discarded count + remaining
queue length equals the original total, both before (the hypothesis) and
after the advance. -/
theorem C3_ledger_sum_invariant (s : MyApp) (keep_image : Bool) (total : Nat)
    (hne : s.image_paths ≠ [])
    (hbefore : s.kept_images.length + s.discarded_count + s.image_paths.length = total) :
    s.kept_images.length + s.discarded_count + s.image_paths.length = total ∧
    (advance s keep_image).kept_images.length +
      (advance s keep_image).discarded_count +
      (advance s keep_image).image_paths.length = total := by
  refine ⟨hbefore, ?_⟩
  match h : s.image_paths with
  | [] => exact absurd h hne
  | current :: rest =>
    rw [h, List.length_cons] at hbefore
    cases keep_image <;> simp [advance, h] <;> omega

/-- Concrete witness for C3: one keep-advance on a one-element queue. -/
theorem C3_ledger_sum_invariant_witness :
    (([["r", "a.jpg"]] : List FsPath) ≠ [] ∧
      (0 : Nat) + 0 + 1 = 1) ∧
    (advance ⟨none, none, [["r", "a.jpg"]], [], 0, false, 0, none⟩ true).kept_images.length +
      (advance ⟨none, none, [["r", "a.jpg"]], [], 0, false, 0, none⟩ true).discarded_count +
      (advance ⟨none, none, [["r", "a.jpg"]], [], 0, false, 0, none⟩ true).image_paths.length = 1 :=
  ⟨⟨by simp, rfl⟩,
    (C3_ledger_sum_invariant ⟨none, none, [["r", "a.jpg"]], [], 0, false, 0, none⟩
      true 1 (by simp) rfl).2⟩

/-- Claim C4: every advance that records a decision purges the cached
texture of the decided (current) item unconditionally: after the advance the
cache holds no entry (`texture = none`), whatever it held before and
whichever verdict was recorded. -/
theorem C4_decided_entry_purged (s : MyApp) (keep_image : Bool)
    (hne : s.image_paths ≠ []) :
    (advance s keep_image).texture = none := by
  match h : s.image_paths with
  | [] => exact absurd h hne
  | current :: rest => simp [advance, h]

/-- Concrete witness for C4: a discard-advance with a texture present. -/
theorem C4_decided_entry_purged_witness :
    (([["r", "a.jpg"]] : List FsPath) ≠ []) ∧
    (advance ⟨none, none, [["r", "a.jpg"]], [], 0, false, 3, some 7⟩ false).texture = none :=
  ⟨by simp,
    C4_decided_entry_purged ⟨none, none, [["r", "a.jpg"]], [], 0, false, 3, some 7⟩
      false (by simp)⟩

/-- Claim C8: the "All images processed" branch of the per-frame update —
the only place `copy_kept_images` and the reset action can be triggered — is
unreachable: it is the else-branch of a non-emptiness test on the queue that
is evaluated only under an identical non-emptiness test on the same,
unmutated queue. -/
theorem C8_all_processed_branch_unreachable (s : MyApp)
    (right_pressed left_pressed keep_clicked discard_clicked : Bool) :
    (update_frame s right_pressed left_pressed keep_clicked discard_clicked).1 ≠
      FrameBranch.allProcessed := by
  unfold update_frame
  by_cases h : s.image_paths.isEmpty <;> simp [h]
  repeat' split
  all_goals simp

/-- The characters strictly before the first dot of a reversed file name —
that is, the characters after the LAST dot of the name, reversed; none when
no dot occurs. Helper for `rust_extension`. -/
def ext_rev : List Char → Option (List Char)
  | [] => none
  | c :: rest =>
      if c = '.' then some []
      else match ext_rev rest with
        | some e => some (c :: e)
        | none => none

/-- Mirrors `Path::extension` of Rust applied to a file name: none when the
name embeds no dot, or when its only dot is the leading one (hidden files);
otherwise the portion after the final dot. -/
def rust_extension (n : String) : Option String :=
  let cs := n.toList
  if cs.headD ' ' = '.' ∧ cs.count '.' = 1 then none
  else (ext_rev cs.reverse).map (fun e => String.mk e.reverse)

/-- ASCII lowercasing of a string, mirroring `str::to_lowercase` on the
ASCII extensions compared here. -/
def lower_str (s : String) : String := String.mk (s.toList.map Char.toLower)

/-- Mirrors the file classification of `insert_children` (main.rs lines
64-74) and its copy at the root level (lines 191-201): a file counts as an
image exactly when it has an extension whose lowercase form is jpg or jpeg;
other extensions and extensionless names are skipped. -/
def is_image_name (n : String) : Bool :=
  match rust_extension n with
  | some e => decide (lower_str e = "jpg") || decide (lower_str e = "jpeg")
  | none => false

/-- One entry of a directory listing, as the scan observes it: a plain file,
a directory whose `read_dir` succeeds with the given entries, or a directory
whose `read_dir` fails. Entries whose `metadata()` call fails are skipped by
the code and are not modelled. -/
inductive FsEntry where
  | file (name : String)
  | dir (name : String) (entries : List FsEntry)
  | unreadable_dir (name : String)

/-- `Vec::push` onto the `images` field. -/
def add_image : FileSysNode → String → FileSysNode
  | .mk i c n, img => .mk (i ++ [img]) c n

/-- `Vec::push` onto the `children` field. -/
def add_child : FileSysNode → FileSysNode → FileSysNode
  | .mk i c n, child => .mk i (c ++ [child]) n

/-- Mirrors the entry loop shared by `insert_children` (main.rs lines 47-80)
and the root-level scan in `update` (lines 175-207): a subdirectory entry
becomes a child node populated recursively (an unreadable one contributes an
empty child, because `insert_children` swallows the `read_dir` failure and
the child is pushed regardless); a file entry is appended to `images` when
`is_image_name` accepts it and skipped otherwise. The `Result` returned by
`insert_children` is always `Ok` (no branch constructs an error), so the
model is a total function. -/
def process_entries : FileSysNode → List FsEntry → FileSysNode
  | node, [] => node
  | node, (FsEntry.file n) :: rest =>
      if is_image_name n then process_entries (add_image node n) rest
      else process_entries node rest
  | node, (FsEntry.dir n es) :: rest =>
      process_entries (add_child node (process_entries (.mk [] [] n) es)) rest
  | node, (FsEntry.unreadable_dir n) :: rest =>
      process_entries (add_child node (.mk [] [] n)) rest

/-- Mirrors the root scan of `update` (main.rs lines 168-217): the root node
is named after the picked path; `if let Ok(entries) = path.read_dir()`
processes the listing when it succeeds and does nothing when it fails — an
unreadable root therefore yields the empty root node, with no error value of
any kind (the scan has no error outcome in the code). -/
def scan_root (root_name : String) (listing : Option (List FsEntry)) : FileSysNode :=
  match listing with
  | some es => process_entries (.mk [] [] root_name) es
  | none => .mk [] [] root_name

/-- The image contribution of a single listing entry to the node being
scanned: a file with a recognized extension, and nothing otherwise. -/
def entry_image : FsEntry → Option String
  | FsEntry.file n => if is_image_name n then some n else none
  | FsEntry.dir _ _ => none
  | FsEntry.unreadable_dir _ => none

theorem add_image_images (node : FileSysNode) (i : String) :
    (add_image node i).images = node.images ++ [i] := by
  match node with
  | .mk a b c => rfl

theorem add_child_images (node child : FileSysNode) :
    (add_child node child).images = node.images := by
  match node with
  | .mk a b c => rfl

theorem process_entries_images (es : List FsEntry) (node : FileSysNode) :
    (process_entries node es).images = node.images ++ es.filterMap entry_image := by
  induction es generalizing node with
  | nil => simp [process_entries]
  | cons e rest ih =>
    match e with
    | FsEntry.file n =>
      by_cases h : is_image_name n <;>
        simp [process_entries, entry_image, h, ih, add_image_images]
    | FsEntry.dir n es' =>
      simp [process_entries, entry_image, ih, add_child_images]
    | FsEntry.unreadable_dir n =>
      simp [process_entries, entry_image, ih, add_child_images]

/-- Claim C9: every file entry met during scanning is classified by its
extension, lowercased and compared against jpg / jpeg; all other files
(wrong extension or no extension) are silently skipped — the images a scan
adds to a node are exactly the accepted file names, in listing order. On the
concrete listing root = [x.jpg, d/[y.jpeg, z.png]] the projection is exactly
[root/x.jpg, root/d/y.jpeg] (z.png is excluded). -/
theorem C9_extension_classification :
    (∀ (node : FileSysNode) (es : List FsEntry),
      (process_entries node es).images = node.images ++ es.filterMap entry_image) ∧
    get_images_depth_first_current_priority
        (scan_root "root" (some [FsEntry.file "x.jpg",
          FsEntry.dir "d" [FsEntry.file "y.jpeg", FsEntry.file "z.png"]]))
        ["root"] =
      [["root", "x.jpg"], ["root", "d", "y.jpeg"]] :=
  ⟨fun node es => process_entries_images es node, by
    simp [scan_root, process_entries, get_images_depth_first_current_priority,
      get_images_list, add_image, add_child, FileSysNode.name, FileSysNode.images,
      show is_image_name "x.jpg" = true from by decide,
      show is_image_name "y.jpeg" = true from by decide,
      show is_image_name "z.png" = false from by decide]⟩

/-- Counterexample to claim C10: when the root path is unreadable (its
`read_dir` fails), the scan does NOT fail with any error — the code's
`if let Ok(entries) = path.read_dir()` (main.rs line 175) silently skips the
whole listing, and the session proceeds with an empty tree: the root node
carries no images and no children, and the projected work queue is empty.
The scan has no error outcome at all in the code (`scan_root` is total), so
no ScanError can be produced. -/
theorem C10_counterexample_unreadable_root_is_silent :
    scan_root "root" none = FileSysNode.mk [] [] "root" ∧
    get_images_depth_first_current_priority (scan_root "root" none) ["root"] = [] ∧
    count_images (scan_root "root" none) = 0 := by
  refine ⟨rfl, ?_, ?_⟩ <;>
    simp [scan_root, get_images_depth_first_current_priority, get_images_list,
      count_images, count_images_list]

/-- Claim C10 as amended: when the chosen root path is unreadable the scan
silently produces an empty tree (empty root node, empty projected queue) —
no error is raised; and per-subdirectory read failures are recovered by
skipping without propagating: an unreadable subdirectory entry is processed
exactly like a readable subdirectory with an empty listing (an empty child
node is appended and scanning continues with the remaining entries). -/
theorem C10_amended_root_failure_silent_subdir_skipped
    (root_name : String) (node : FileSysNode) (n : String) (rest : List FsEntry) :
    (scan_root root_name none = FileSysNode.mk [] [] root_name ∧
      get_images_depth_first_current_priority (scan_root root_name none)
        [root_name] = []) ∧
    process_entries node (FsEntry.unreadable_dir n :: rest) =
      process_entries node (FsEntry.dir n [] :: rest) := by
  refine ⟨⟨rfl, ?_⟩, ?_⟩
  · simp [scan_root, get_images_depth_first_current_priority, get_images_list]
  · simp [process_entries]

/-- Mirrors `Path::file_stem` of Rust applied to a file name with
`to_string_lossy`: the name minus its extension and the final dot when an
extension exists, otherwise the whole name. -/
def rust_file_stem (n : String) : String :=
  match rust_extension n with
  | none => n
  | some e => String.mk (n.toList.take (n.toList.length - (e.toList.length + 1)))

/-- Mirrors `Path::with_file_name`: replace the last path component. -/
def with_file_name (p : FsPath) (n : String) : FsPath := p.dropLast ++ [n]

/-- Component-wise prefix test on paths: `starts_with base p` holds when `p`
begins with all of `base`. -/
def starts_with : FsPath → FsPath → Bool
  | [], _ => true
  | _ :: _, [] => false
  | a :: as, b :: bs => decide (a = b) && starts_with as bs

/-- Mirrors `Path::strip_prefix` (main.rs lines 122 and 141): the path with
`base` removed from its front, or none when `base` is not a prefix of `p`
(the `?` operator then aborts `copy_kept_images` with that error). -/
def path_rel (p base : FsPath) : Option FsPath :=
  if starts_with base p then some (p.drop base.length) else none

/-- The export-time filesystem, as `copy_kept_images` observes it: which
files exist (`Path::exists`, consulted only for the CR3 sidecar probes), and
which sources / directories make `fs::copy` / `fs::create_dir_all` fail. -/
structure FsConfig where
  existing : List FsPath
  copy_fail : List FsPath
  mkdir_fail : List FsPath

/-- The error outcomes of `copy_kept_images` (its `Box<dyn Error>`): a
`strip_prefix` failure or an I/O (create-dir / copy) failure, tagged with
the offending path. -/
inductive ExportErr where
  | path_err (p : FsPath)
  | io_err (p : FsPath)
deriving DecidableEq

/-- `fs::create_dir_all` under `FsConfig`: fails exactly on the configured
directories, creates (no observable state here) otherwise. -/
def try_mkdir (cfg : FsConfig) (d : FsPath) : Option ExportErr :=
  if d ∈ cfg.mkdir_fail then some (ExportErr.io_err d) else none

/-- `fs::copy` under `FsConfig`: fails exactly on the configured sources. -/
def try_copy (cfg : FsConfig) (src : FsPath) : Option ExportErr :=
  if src ∈ cfg.copy_fail then some (ExportErr.io_err src) else none

/-- Mirrors main.rs lines 134-139: when the kept path has a file name (and
hence a stem), the two sidecar probe paths, uppercase `.CR3` first, then
lowercase `.cr3`; no file name means the `if let Some(stem)` guard skips the
sidecar phase. -/
def cr3_candidates (kept : FsPath) : List FsPath :=
  match kept.getLast? with
  | none => []
  | some n =>
      [with_file_name kept (rust_file_stem n ++ ".CR3"),
       with_file_name kept (rust_file_stem n ++ ".cr3")]

/-- Mirrors the `for potential_cr3 in [&cr3_path, &cr3_path_lower]` loop
(main.rs lines 139-153): skip candidates that do not exist; on the first
existing candidate, strip the working prefix, create the destination's
parent directory, copy, and break — any failure aborts with its error.
Returns the performed copies (source, destination) and the error, if any. -/
def cr3_loop (cfg : FsConfig) (working out : FsPath) :
    List FsPath → List (FsPath × FsPath) × Option ExportErr
  | [] => ([], none)
  | cand :: rest =>
      if cand ∈ cfg.existing then
        match path_rel cand working with
        | none => ([], some (ExportErr.path_err cand))
        | some rel =>
          match try_mkdir cfg ((out ++ rel).dropLast) with
          | some e => ([], some e)
          | none =>
            match try_copy cfg cand with
            | some e => ([], some e)
            | none => ([(cand, out ++ rel)], none)
      else cr3_loop cfg working out rest

/-- Mirrors one iteration of the kept-image loop (main.rs lines 120-155):
strip the working prefix, create the destination's parent directory, copy
the image itself, then run the sidecar phase; the first failure aborts with
its error, and the copies performed up to that point are reported. -/
def process_kept (cfg : FsConfig) (working out kept : FsPath) :
    List (FsPath × FsPath) × Option ExportErr :=
  match path_rel kept working with
  | none => ([], some (ExportErr.path_err kept))
  | some rel =>
    match try_mkdir cfg ((out ++ rel).dropLast) with
    | some e => ([], some e)
    | none =>
      match try_copy cfg kept with
      | some e => ([], some e)
      | none =>
        match cr3_loop cfg working out (cr3_candidates kept) with
        | (cs, e) => ((kept, out ++ rel) :: cs, e)

/-- The `for kept_image_path in &self.kept_images` loop (main.rs line 120):
process each kept path in order; a failing iteration ends the loop at once
(the `?` operator returns), keeping the copies performed so far. -/
def copy_loop (cfg : FsConfig) (working out : FsPath) :
    List FsPath → List (FsPath × FsPath) × Option ExportErr
  | [] => ([], none)
  | k :: rest =>
    match process_kept cfg working out k with
    | (cs, some e) => (cs, some e)
    | (cs, none) =>
      match copy_loop cfg working out rest with
      | (cs2, e2) => (cs ++ cs2, e2)

/-- Mirrors `MyApp::copy_kept_images` (main.rs lines 112-158) in the case
where a working path is selected: create the `kept_images` output folder
(failure aborts at once with no copies), then run the kept-image loop. -/
def copy_kept_images (cfg : FsConfig) (working : FsPath) (kept : List FsPath) :
    List (FsPath × FsPath) × Option ExportErr :=
  match try_mkdir cfg (working ++ ["kept_images"]) with
  | some e => ([], some e)
  | none => copy_loop cfg working (working ++ ["kept_images"]) kept

/-- Claim C6: for a kept path with a file name, the sidecar phase probes the
uppercase `.CR3` path first and the lowercase `.cr3` path second; when at
least one exists and the phase succeeds, it copies exactly the first
existing match — one single copy, never both, even when both files exist. -/
theorem C6_sidecar_first_match_only (cfg : FsConfig) (working out kept : FsPath)
    (n : String) (hn : kept.getLast? = some n)
    (hex : with_file_name kept (rust_file_stem n ++ ".CR3") ∈ cfg.existing ∨
           with_file_name kept (rust_file_stem n ++ ".cr3") ∈ cfg.existing)
    (hok : (cr3_loop cfg working out (cr3_candidates kept)).2 = none) :
    (cr3_loop cfg working out (cr3_candidates kept)).1.map Prod.fst =
      [if with_file_name kept (rust_file_stem n ++ ".CR3") ∈ cfg.existing
       then with_file_name kept (rust_file_stem n ++ ".CR3")
       else with_file_name kept (rust_file_stem n ++ ".cr3")] := by
  have hc : cr3_candidates kept =
      [with_file_name kept (rust_file_stem n ++ ".CR3"),
       with_file_name kept (rust_file_stem n ++ ".cr3")] := by
    simp [cr3_candidates, hn]
  rw [hc] at hok ⊢
  by_cases hup : with_file_name kept (rust_file_stem n ++ ".CR3") ∈ cfg.existing
  · obtain ⟨rel, hrel⟩ :
        ∃ rel, path_rel (with_file_name kept (rust_file_stem n ++ ".CR3")) working = some rel := by
      cases h : path_rel (with_file_name kept (rust_file_stem n ++ ".CR3")) working with
      | none => rw [cr3_loop, if_pos hup, h] at hok; simp at hok
      | some rel => exact ⟨rel, rfl⟩
    have hm : try_mkdir cfg ((out ++ rel).dropLast) = none := by
      cases h : try_mkdir cfg ((out ++ rel).dropLast) with
      | some e => rw [cr3_loop, if_pos hup, hrel] at hok; simp [h] at hok
      | none => rfl
    have hcp : try_copy cfg (with_file_name kept (rust_file_stem n ++ ".CR3")) = none := by
      cases h : try_copy cfg (with_file_name kept (rust_file_stem n ++ ".CR3")) with
      | some e => rw [cr3_loop, if_pos hup, hrel] at hok; simp [hm, h] at hok
      | none => rfl
    rw [if_pos hup, cr3_loop, if_pos hup, hrel]
    simp [hm, hcp]
  · have hlo : with_file_name kept (rust_file_stem n ++ ".cr3") ∈ cfg.existing := by
      rcases hex with h | h
      · exact absurd h hup
      · exact h
    rw [cr3_loop, if_neg hup] at hok
    obtain ⟨rel, hrel⟩ :
        ∃ rel, path_rel (with_file_name kept (rust_file_stem n ++ ".cr3")) working = some rel := by
      cases h : path_rel (with_file_name kept (rust_file_stem n ++ ".cr3")) working with
      | none => rw [cr3_loop, if_pos hlo, h] at hok; simp at hok
      | some rel => exact ⟨rel, rfl⟩
    have hm : try_mkdir cfg ((out ++ rel).dropLast) = none := by
      cases h : try_mkdir cfg ((out ++ rel).dropLast) with
      | some e => rw [cr3_loop, if_pos hlo, hrel] at hok; simp [h] at hok
      | none => rfl
    have hcp : try_copy cfg (with_file_name kept (rust_file_stem n ++ ".cr3")) = none := by
      cases h : try_copy cfg (with_file_name kept (rust_file_stem n ++ ".cr3")) with
      | some e => rw [cr3_loop, if_pos hlo, hrel] at hok; simp [hm, h] at hok
      | none => rfl
    rw [if_neg hup, cr3_loop, if_neg hup, cr3_loop, if_pos hlo, hrel]
    simp [hm, hcp]

/-- Concrete witness for C6: both `a.CR3` and `a.cr3` exist next to the kept
`w/a.jpg`; exactly the uppercase one is copied. -/
theorem C6_sidecar_first_match_only_witness :
    ((["w", "a.jpg"] : FsPath).getLast? = some "a.jpg" ∧
      (with_file_name ["w", "a.jpg"] (rust_file_stem "a.jpg" ++ ".CR3") ∈
        (FsConfig.mk [["w", "a.CR3"], ["w", "a.cr3"]] [] []).existing ∨
       with_file_name ["w", "a.jpg"] (rust_file_stem "a.jpg" ++ ".cr3") ∈
        (FsConfig.mk [["w", "a.CR3"], ["w", "a.cr3"]] [] []).existing) ∧
      (cr3_loop (FsConfig.mk [["w", "a.CR3"], ["w", "a.cr3"]] [] []) ["w"]
        ["w", "kept_images"] (cr3_candidates ["w", "a.jpg"])).2 = none) ∧
    (cr3_loop (FsConfig.mk [["w", "a.CR3"], ["w", "a.cr3"]] [] []) ["w"]
        ["w", "kept_images"] (cr3_candidates ["w", "a.jpg"])).1.map Prod.fst =
      [if with_file_name ["w", "a.jpg"] (rust_file_stem "a.jpg" ++ ".CR3") ∈
          (FsConfig.mk [["w", "a.CR3"], ["w", "a.cr3"]] [] []).existing
       then with_file_name ["w", "a.jpg"] (rust_file_stem "a.jpg" ++ ".CR3")
       else with_file_name ["w", "a.jpg"] (rust_file_stem "a.jpg" ++ ".cr3")] :=
  ⟨⟨by decide, by decide, by decide⟩,
    C6_sidecar_first_match_only (FsConfig.mk [["w", "a.CR3"], ["w", "a.cr3"]] [] [])
      ["w"] ["w", "kept_images"] ["w", "a.jpg"] "a.jpg"
      (by decide) (by decide) (by decide)⟩

theorem copy_loop_fail_first (cfg : FsConfig) (working out : FsPath)
    (pre : List FsPath) (p : FsPath) (post : List FsPath) (e : ExportErr)
    (hpre : ∀ q ∈ pre, (process_kept cfg working out q).2 = none)
    (hfail : (process_kept cfg working out p).2 = some e) :
    copy_loop cfg working out (pre ++ p :: post) =
      ((pre.map (fun q => (process_kept cfg working out q).1)).join ++
        (process_kept cfg working out p).1, some e) := by
  induction pre with
  | nil =>
    rw [List.nil_append, copy_loop]
    cases hp : process_kept cfg working out p with
    | mk cs e' =>
      rw [hp] at hfail
      simp only at hfail
      subst hfail
      simp
  | cons q pre ih =>
    have hq : (process_kept cfg working out q).2 = none := hpre q (by simp)
    have ih2 := ih (fun r hr => hpre r (by simp [hr]))
    rw [List.cons_append, copy_loop]
    cases hpq : process_kept cfg working out q with
    | mk cs e' =>
      rw [hpq] at hq
      simp only at hq
      subst hq
      rw [ih2]
      simp [hpq]

/-- Claim C7: when the output folder is creatable and the first failing kept
path is `p` (every kept path before it processes cleanly), the export stops
at `p` with that error: the copies performed are exactly those of the
preceding kept paths plus whatever `p` managed before failing — the paths
after `p` are never processed, and the already performed copies remain in
the result (no rollback). -/
theorem C7_export_aborts_on_first_failure (cfg : FsConfig) (working : FsPath)
    (pre : List FsPath) (p : FsPath) (post : List FsPath) (e : ExportErr)
    (hmk : try_mkdir cfg (working ++ ["kept_images"]) = none)
    (hpre : ∀ q ∈ pre,
      (process_kept cfg working (working ++ ["kept_images"]) q).2 = none)
    (hfail : (process_kept cfg working (working ++ ["kept_images"]) p).2 = some e) :
    copy_kept_images cfg working (pre ++ p :: post) =
      ((pre.map (fun q =>
          (process_kept cfg working (working ++ ["kept_images"]) q).1)).join ++
        (process_kept cfg working (working ++ ["kept_images"]) p).1,
       some e) := by
  rw [copy_kept_images, hmk]
  exact copy_loop_fail_first cfg working (working ++ ["kept_images"]) pre p post e hpre hfail

/-- Concrete witness for C7: kept list [w/a.jpg, w/b.jpg, w/c.jpg] where the
copy of w/b.jpg fails: a.jpg is copied, the export returns the error, and
c.jpg is never processed. -/
theorem C7_export_aborts_on_first_failure_witness :
    (try_mkdir (FsConfig.mk [] [["w", "b.jpg"]] []) ["w", "kept_images"] = none ∧
      (∀ q ∈ [(["w", "a.jpg"] : FsPath)],
        (process_kept (FsConfig.mk [] [["w", "b.jpg"]] []) ["w"]
          ["w", "kept_images"] q).2 = none) ∧
      (process_kept (FsConfig.mk [] [["w", "b.jpg"]] []) ["w"]
        ["w", "kept_images"] ["w", "b.jpg"]).2 =
        some (ExportErr.io_err ["w", "b.jpg"])) ∧
    copy_kept_images (FsConfig.mk [] [["w", "b.jpg"]] []) ["w"]
        [["w", "a.jpg"], ["w", "b.jpg"], ["w", "c.jpg"]] =
      (([(["w", "a.jpg"] : FsPath)].map (fun q =>
          (process_kept (FsConfig.mk [] [["w", "b.jpg"]] []) ["w"]
            ["w", "kept_images"] q).1)).join ++
        (process_kept (FsConfig.mk [] [["w", "b.jpg"]] []) ["w"]
          ["w", "kept_images"] ["w", "b.jpg"]).1,
       some (ExportErr.io_err ["w", "b.jpg"])) :=
  ⟨⟨by decide, by decide, by decide⟩,
    C7_export_aborts_on_first_failure (FsConfig.mk [] [["w", "b.jpg"]] []) ["w"]
      [["w", "a.jpg"]] ["w", "b.jpg"] [["w", "c.jpg"]]
      (ExportErr.io_err ["w", "b.jpg"])
      (by decide) (by decide) (by decide)⟩

/-- Modelled from the spec: the windowed byte cache of the WindowCache
component is not present in src/src/main.rs (the only cached artifact there
is the current item's texture, `MyApp.texture`); the spec describes it for
the repository's other source variant. Default trailing margin of the
eviction window. -/
def backward_margin : Nat := 5

/-- Modelled from the spec: default look-ahead margin of the eviction
window (see `backward_margin` for why this is spec-modelled). -/
def forward_margin : Nat := 15

/-- Modelled from the spec: the WindowCache state — a cursor into the
projected sequence and a cache mapping sequence positions to raw bytes
(bytes abstracted as `List Nat`). Not present in src/src/main.rs. -/
structure CacheState where
  cursor : Nat
  cache : List (Nat × List Nat)

/-- Modelled from the spec: `evict(cursor)` removes every cached entry whose
position falls outside the window
`[cursor - backward_margin, cursor + forward_margin)`. Not present in
src/src/main.rs. -/
def evict (cache : List (Nat × List Nat)) (cursor : Nat) : List (Nat × List Nat) :=
  cache.filter (fun entry =>
    decide (cursor - backward_margin ≤ entry.1) &&
      decide (entry.1 < cursor + forward_margin))

/-- Modelled from the spec: a cursor advance moves the cursor one position
forward and runs the eviction pass unconditionally (eviction runs after
every cursor advance, not heuristically). Not present in src/src/main.rs. -/
def cache_advance (st : CacheState) : CacheState :=
  CacheState.mk (st.cursor + 1) (evict st.cache (st.cursor + 1))

/-- Claim C5: after the eviction pass run by any cursor advance, with the
new cursor position c, the cache holds no entry at a position p with
p < c - backward_margin or p ≥ c + forward_margin (defaults 5 and 15); the
eviction is part of every advance unconditionally (`cache_advance` always
applies `evict`). -/
theorem C5_eviction_window (st : CacheState) (p : Nat) (b : List Nat)
    (hmem : (p, b) ∈ (cache_advance st).cache) :
    ¬ (p < (cache_advance st).cursor - backward_margin ∨
       (cache_advance st).cursor + forward_margin ≤ p) := by
  simp only [cache_advance, evict] at hmem
  have h := (List.mem_filter.mp hmem).2
  simp [backward_margin, forward_margin] at h
  simp only [cache_advance, backward_margin, forward_margin]
  omega

/-- Concrete witness for C5: after advancing from cursor 0 to cursor 1, the
entry at position 1 is inside the window and retained, and position 1 indeed
violates neither window bound. -/
theorem C5_eviction_window_witness :
    ((1, [7]) ∈ (cache_advance (CacheState.mk 0 [(1, [7])])).cache) ∧
    ¬ ((1 : Nat) < (cache_advance (CacheState.mk 0 [(1, [7])])).cursor - backward_margin ∨
       (cache_advance (CacheState.mk 0 [(1, [7])])).cursor + forward_margin ≤ 1) :=
  ⟨by decide, C5_eviction_window (CacheState.mk 0 [(1, [7])]) 1 [7] (by decide)⟩
